import Mathlib

/-!
# Verification of the event batching and encoding core of `driver_ros1.h`

Shallow embedding of the event-camera driver core
(`src/include/metavision_ros_driver/driver_ros1.h`), namely the two
`publish` bodies (the generic "Verbose" one and the
`event_array2_msgs::EventArray2` "Compact" specialization) and the
configuration computed in `start()`.

Conventions:
* C++ unsigned 64-bit arithmetic is `Nat` with explicit `% 2^64`.
* The C++ `double` computations on timestamps are modelled exactly:
  `toDouble` is round-to-nearest-even at 53 significant bits, which is the
  IEEE-754 binary64 value of a natural number (all values that occur here
  are far below the binary64 overflow threshold, and conversion of an
  integer-valued double back to `uint64_t` is the identity below `2^64`).
* The configuration arithmetic in `start()` (`sensors_max_mevs /
  max(mtt, 1e-6)`) is modelled over `ℚ`, i.e. as exact real arithmetic;
  all concrete inputs used in theorems below are dyadic rationals on which
  binary64 arithmetic is exact.
* Out-of-bounds reads (past-the-end pointer dereference, `begin()` of an
  empty vector) are undefined behaviour in the C++ source; the embedding
  returns `none` at exactly those program points.
-/

namespace MetavisionDriver

/-! ## IEEE-754 binary64 rounding of natural numbers -/

/-- Round `n` to a multiple of `2 ^ e`, nearest, ties to even. -/
def roundPow2 (n e : Nat) : Nat :=
  let q := n / 2 ^ e
  let r := n % 2 ^ e
  if r < 2 ^ (e - 1) then q * 2 ^ e
  else if 2 ^ (e - 1) < r then (q + 1) * 2 ^ e
  else if q % 2 = 0 then q * 2 ^ e else (q + 1) * 2 ^ e

/-- Number of halvings of `m` needed to fall below `2 ^ 53` (fuelled so that
it is structurally recursive; fuel `128` covers every value below `2 ^ 181`,
far beyond anything a `uint64_t` computation can produce). -/
def expAux : Nat → Nat → Nat
  | 0, _ => 0
  | f + 1, m => if m < 2 ^ 53 then 0 else 1 + expAux f (m / 2)

/-- The IEEE-754 binary64 value of the natural number `n`: `n` rounded to 53
significant bits, nearest, ties to even.  Exact for `n < 2 ^ 53`. -/
def toDouble (n : Nat) : Nat := roundPow2 n (expAux 128 n)

/-! ## Timestamp conversion (sensor microseconds to absolute nanoseconds)

The Verbose `publish` runs `e_trg.ts.fromNSec(t0_ + e_src.t * 1e3)`
(line 166): the whole sum is evaluated in `double` (`t0_` is a `uint64_t`
promoted to `double`) and only then converted back to an integer.

The Compact `publish` runs `t0_ + (uint64_t)(e.t * 1e3)` (lines 242, 259,
267): only the product is evaluated in `double`; the addition is exact
`uint64_t` arithmetic (wrapping modulo `2 ^ 64`). -/

/-- Absolute timestamp computed by the Verbose encoder (line 166):
`t0_ + e_src.t * 1e3` evaluated in binary64.  `1e3` is exactly
representable, so the product rounds the exact integer `t * 1000` and the
sum rounds the exact integer sum of the two rounded operands. -/
def verboseTs (t0 t : Nat) : Nat :=
  toDouble (toDouble t0 + toDouble (toDouble t * 1000))

/-- Absolute timestamp computed by the Compact encoder (lines 242, 259, 267):
`t0_ + (uint64_t)(e.t * 1e3)`, a wrapping `uint64_t` addition. -/
def compactTs (t0 t : Nat) : Nat :=
  (t0 + toDouble (toDouble t * 1000)) % 2 ^ 64

/-! ## The Compact 64-bit word -/

/-- A raw sensor event (`Metavision::EventCD`): `x`, `y` are `unsigned
short` (so below `2 ^ 16` by type), `p` is a `short` holding `0` or `1`,
`t` is the sensor-relative timestamp in microseconds. -/
structure EventCD where
  x : Nat
  y : Nat
  p : Nat
  t : Nat
deriving DecidableEq

/-- The packed word of line 261:
`(uint64_t)e.p << 63 | (uint64_t)e.y << 48 | (uint64_t)e.x << 32 | dt`,
in `uint64_t` arithmetic. -/
def packWord (p y x dt : Nat) : Nat :=
  (p <<< 63 ||| y <<< 48 ||| x <<< 32 ||| dt) % 2 ^ 64

/-- The relative timestamp of line 260: `(ts - t_base) & 0xFFFFFFFFULL`,
with a wrapping `uint64_t` subtraction. -/
def cdt (ts tb : Nat) : Nat :=
  ((ts + 2 ^ 64 - tb) % 2 ^ 64) &&& 0xFFFFFFFF

/-! Field extraction according to the specification's wire layout
(`[63] = polarity, [62:48] = y, [47:32] = x, [31:0] = dt`).  These four
definitions are modelled from the spec's bit layout (the source only
encodes; decoding lives downstream). -/

/-- Bit 63 of a Compact word (spec wire layout: polarity). -/
def decodeP (w : Nat) : Nat := w / 2 ^ 63 % 2

/-- Bits 62..48 of a Compact word (spec wire layout: y). -/
def decodeY (w : Nat) : Nat := w / 2 ^ 48 % 2 ^ 15

/-- Bits 47..32 of a Compact word (spec wire layout: x). -/
def decodeX (w : Nat) : Nat := w / 2 ^ 32 % 2 ^ 16

/-- Bits 31..0 of a Compact word (spec wire layout: dt). -/
def decodeDt (w : Nat) : Nat := w % 2 ^ 32

/-! ## Bit-level helper lemmas -/

theorem testBit_two_pow_mul_add {k c : Nat} (b : Nat) (hc : c < 2 ^ k)
    (i : Nat) :
    Nat.testBit (2 ^ k * b + c) i =
      if i < k then Nat.testBit c i else Nat.testBit b (i - k) := by
  rcases Nat.lt_or_ge i k with h | h
  · rw [if_pos h, Nat.testBit_to_div_mod, Nat.testBit_to_div_mod]
    have hsplit : 2 ^ k * b = 2 ^ i * (2 ^ (k - i) * b) := by
      rw [← Nat.mul_assoc, ← Nat.pow_add]
      congr 2
      omega
    rw [hsplit, Nat.mul_add_div (Nat.two_pow_pos i)]
    obtain ⟨m, hm⟩ : ∃ m, k - i = m + 1 := ⟨k - i - 1, by omega⟩
    have h2 : 2 ^ (k - i) * b = 2 ^ m * b * 2 := by
      rw [hm, Nat.pow_succ]
      ring
    rw [h2, Nat.add_comm (2 ^ m * b * 2) (c / 2 ^ i),
      Nat.add_mul_mod_self_right]
  · rw [if_neg (Nat.not_lt.mpr h), Nat.testBit_to_div_mod,
      Nat.testBit_to_div_mod]
    have hsplit : 2 ^ i = 2 ^ k * 2 ^ (i - k) := by
      rw [← Nat.pow_add]
      congr 1
      omega
    rw [hsplit, ← Nat.div_div_eq_div_mul,
      Nat.mul_add_div (Nat.two_pow_pos k), Nat.div_eq_of_lt hc,
      Nat.add_zero]

theorem lor_split {k c : Nat} (a b : Nat) (hc : c < 2 ^ k) :
    (2 ^ k * a) ||| (2 ^ k * b + c) = 2 ^ k * (a ||| b) + c := by
  apply Nat.eq_of_testBit_eq
  intro i
  have ha : Nat.testBit (2 ^ k * a) i =
      if i < k then Nat.testBit 0 i else Nat.testBit a (i - k) := by
    have h := testBit_two_pow_mul_add (k := k) (c := 0) a
      (Nat.two_pow_pos k) i
    simpa using h
  rw [Nat.testBit_or, ha, testBit_two_pow_mul_add b hc i,
    testBit_two_pow_mul_add (a ||| b) hc i]
  by_cases h : i < k <;> simp [h, Nat.testBit_or]

theorem lor_bits {a b : Nat} (ha : a < 2) (hb : b < 2) :
    a ||| b = max a b := by
  interval_cases a <;> interval_cases b <;> decide

/-- Normal form of the packed word, valid for in-range C++ inputs
(`x`, `y` below `2 ^ 16` by their `unsigned short` type, `p ∈ {0, 1}`,
`dt` masked to 32 bits): bit 15 of `y` is or-ed into the polarity bit. -/
theorem packWord_eq {p y x dt : Nat} (hp : p < 2) (hy : y < 2 ^ 16)
    (hx : x < 2 ^ 16) (hdt : dt < 2 ^ 32) :
    packWord p y x dt =
      max p (y / 2 ^ 15) * 2 ^ 63 + y % 2 ^ 15 * 2 ^ 48 + x * 2 ^ 32 + dt := by
  have hy15 : y / 2 ^ 15 < 2 := by omega
  have hy0 : y % 2 ^ 15 < 2 ^ 15 := Nat.mod_lt _ (by norm_num)
  unfold packWord
  rw [Nat.shiftLeft_eq, Nat.shiftLeft_eq, Nat.shiftLeft_eq,
    Nat.lor_assoc, Nat.lor_assoc]
  have e1 : x * 2 ^ 32 ||| dt = x * 2 ^ 32 + dt := by
    have h := lor_split (k := 32) x 0 hdt
    simpa [Nat.mul_comm] using h
  rw [e1]
  have e2 : y * 2 ^ 48 ||| (x * 2 ^ 32 + dt) = y * 2 ^ 48 + (x * 2 ^ 32 + dt) := by
    have hlt : x * 2 ^ 32 + dt < 2 ^ 48 := by omega
    have h := lor_split (k := 48) y 0 hlt
    simpa [Nat.mul_comm] using h
  rw [e2]
  have hyrw : y * 2 ^ 48 + (x * 2 ^ 32 + dt) =
      2 ^ 63 * (y / 2 ^ 15) + (y % 2 ^ 15 * 2 ^ 48 + (x * 2 ^ 32 + dt)) := by
    have hdm : 2 ^ 15 * (y / 2 ^ 15) + y % 2 ^ 15 = y := Nat.div_add_mod y (2 ^ 15)
    calc y * 2 ^ 48 + (x * 2 ^ 32 + dt)
        = (2 ^ 15 * (y / 2 ^ 15) + y % 2 ^ 15) * 2 ^ 48 + (x * 2 ^ 32 + dt) := by
          rw [hdm]
      _ = 2 ^ 63 * (y / 2 ^ 15) + (y % 2 ^ 15 * 2 ^ 48 + (x * 2 ^ 32 + dt)) := by
          ring
  have hlt2 : y % 2 ^ 15 * 2 ^ 48 + (x * 2 ^ 32 + dt) < 2 ^ 63 := by omega
  have e3 : p * 2 ^ 63 ||| (y * 2 ^ 48 + (x * 2 ^ 32 + dt)) =
      2 ^ 63 * (p ||| y / 2 ^ 15) + (y % 2 ^ 15 * 2 ^ 48 + (x * 2 ^ 32 + dt)) := by
    rw [hyrw, Nat.mul_comm p (2 ^ 63)]
    exact lor_split p (y / 2 ^ 15) hlt2
  rw [e3, lor_bits hp hy15]
  have hmax : max p (y / 2 ^ 15) < 2 := by omega
  have hfin : 2 ^ 63 * max p (y / 2 ^ 15) +
      (y % 2 ^ 15 * 2 ^ 48 + (x * 2 ^ 32 + dt)) < 2 ^ 64 := by omega
  rw [Nat.mod_eq_of_lt hfin]
  ring

theorem cdt_eq {ts tb : Nat} (hle : tb ≤ ts) :
    cdt ts tb = (ts - tb) % 2 ^ 32 := by
  unfold cdt
  have hmask : (0xFFFFFFFF : Nat) = 2 ^ 32 - 1 := by norm_num
  rw [hmask, Nat.and_pow_two_sub_one_eq_mod]
  omega

theorem cdt_lt (ts tb : Nat) : cdt ts tb < 2 ^ 32 := by
  unfold cdt
  have hmask : (0xFFFFFFFF : Nat) = 2 ^ 32 - 1 := by norm_num
  rw [hmask, Nat.and_pow_two_sub_one_eq_mod]
  exact Nat.mod_lt _ (by norm_num)

/-! ## The Verbose pipeline (generic `DriverROS1<MsgType>::publish`, lines 135-180)

State fields of the embedding mirror the C++ members that the `publish`
body touches: `t0_`, `seq_`, the open message `msg_`, and the four
counters held by the wrapper collaborator (`updateEventCount` for each
polarity, `updateEventsSent`, `updateMsgsSent`).  External collaborators
enter as plain arguments: `now` (`ros::Time::now().toNSec()`), `nsub`
(`pub_.getNumSubscribers()`), and the configuration read in `start()`
(`T` = `messageTimeThreshold_` in nanoseconds, `r` = `reserveSize_`,
`w`/`h` = sensor width/height). -/

/-- One encoded event of the Verbose message (`x`, `y`, `polarity`,
`ts` in absolute nanoseconds). -/
structure VEvent where
  x : Nat
  y : Nat
  polarity : Nat
  ts : Nat
deriving DecidableEq

/-- A Verbose message under construction (`header.seq` is a `uint32`,
`reservedCap` models the capacity passed to `events.reserve`). -/
structure VMsg where
  headerSeq : Nat
  stamp : Nat
  width : Nat
  height : Nat
  reservedCap : Nat
  events : List VEvent
deriving DecidableEq

/-- Driver state for the Verbose variant. -/
structure VState where
  t0 : Nat
  seq : Nat
  msg : Option VMsg
  evCount0 : Nat
  evCount1 : Nat
  eventsSent : Nat
  msgsSent : Nat
deriving DecidableEq

/-- Lines 163-166: one loop iteration of the Verbose copy loop. -/
def vEncode (t0 : Nat) (e : EventCD) : VEvent :=
  { x := e.x, y := e.y, polarity := e.p, ts := verboseTs t0 e.t }

/-- Lines 143-150: reuse the open message, or allocate a fresh one
(incrementing `seq_`) with `reservedCap` capacity. -/
def vOpenMsg (s : VState) (r w h : Nat) : VMsg × Nat :=
  match s.msg with
  | some m => (m, s.seq)
  | none =>
    ({ headerSeq := s.seq % 2 ^ 32, stamp := 0, width := w, height := h,
       reservedCap := r, events := [] }, s.seq + 1)

/-- Lines 151-168: the contents of `msg_->events` after the copy loop. -/
def vEvents (s : VState) (slice : List EventCD) (t0 r w h : Nat) :
    List VEvent :=
  (vOpenMsg s r w h).1.events ++ slice.map (vEncode t0)

/-- Line 159 / 167 (`eventCount[e_src.p]++`): events of polarity 0 in the
slice. -/
def countP0 (slice : List EventCD) : Nat :=
  (slice.filter fun e => e.p = 0).length

/-- Line 159 / 167 (`eventCount[e_src.p]++`): events of polarity 1 in the
slice. -/
def countP1 (slice : List EventCD) : Nat :=
  (slice.filter fun e => e.p = 1).length

/-- The Verbose `publish` body (lines 135-180).  Returns `none` exactly
when the body dereferences `events.begin()` / `events.rbegin()` of an
empty vector (lines 171-172), which is undefined behaviour in the C++
source; otherwise `some` of the new state and the flushed message, if
any. -/
def vPublish (s : VState) (slice : List EventCD) (now nsub T r w h : Nat) :
    Option (VState × Option VMsg) :=
  if nsub = 0 then
    some ({ s with t0 := if s.t0 = 0 then now else s.t0 }, none)
  else
    match (vEvents s slice (if s.t0 = 0 then now else s.t0) r w h).head?,
        (vEvents s slice (if s.t0 = 0 then now else s.t0) r w h).getLast? with
    | some e1, some e2 =>
      if e1.ts + T < e2.ts then
        some ({ s with
                  t0 := if s.t0 = 0 then now else s.t0,
                  seq := (vOpenMsg s r w h).2, msg := none,
                  evCount0 := s.evCount0 + countP0 slice,
                  evCount1 := s.evCount1 + countP1 slice,
                  eventsSent := s.eventsSent +
                    (vEvents s slice (if s.t0 = 0 then now else s.t0) r w h).length,
                  msgsSent := s.msgsSent + 1 },
              some { (vOpenMsg s r w h).1 with
                       stamp := e1.ts,
                       events :=
                         vEvents s slice (if s.t0 = 0 then now else s.t0) r w h })
      else
        some ({ s with
                  t0 := if s.t0 = 0 then now else s.t0,
                  seq := (vOpenMsg s r w h).2,
                  msg := some { (vOpenMsg s r w h).1 with
                                  events :=
                                    vEvents s slice
                                      (if s.t0 = 0 then now else s.t0) r w h },
                  evCount0 := s.evCount0 + countP0 slice,
                  evCount1 := s.evCount1 + countP1 slice },
              none)
    | _, _ => none

/-! ## The Compact pipeline
(`DriverROS1<event_array2_msgs::EventArray2>::publish`, lines 226-274) -/

/-- A Compact message under construction: `time_base` and `header.stamp`
are fixed at allocation from the first event of the batch; `words` is the
`p_y_x_t` vector of packed 64-bit words. -/
structure CMsg where
  headerSeq : Nat
  stamp : Nat
  timeBase : Nat
  seqField : Nat
  width : Nat
  height : Nat
  reservedCap : Nat
  words : List Nat
deriving DecidableEq

/-- Driver state for the Compact variant. -/
structure CState where
  t0 : Nat
  seq : Nat
  msg : Option CMsg
  evCount0 : Nat
  evCount1 : Nat
  eventsSent : Nat
  msgsSent : Nat
deriving DecidableEq

/-- Lines 236-246: reuse the open message, or allocate a fresh one whose
`time_base` (and `header.stamp`) is the absolute timestamp of `*start`,
the first event of the slice that opens the batch.  Dereferencing `start`
when the slice is empty is undefined behaviour: `none`. -/
def cOpenMsg (s : CState) (slice : List EventCD) (t0 r w h : Nat) :
    Option (CMsg × Nat) :=
  match s.msg with
  | some m => some (m, s.seq)
  | none =>
    match slice.head? with
    | none => none
    | some e0 =>
      let tb := compactTs t0 e0.t
      some ({ headerSeq := s.seq % 2 ^ 32, stamp := tb, timeBase := tb,
              seqField := s.seq + 1, width := w, height := h,
              reservedCap := r, words := [] }, s.seq + 1)

/-- Lines 257-262: one loop iteration of the Compact copy loop, producing
the packed word `p << 63 | y << 48 | x << 32 | dt`. -/
def cEncode (t0 tb : Nat) (e : EventCD) : Nat :=
  packWord e.p e.y e.x (cdt (compactTs t0 e.t) tb)

/-- Lines 247-263: the contents of `msg_->p_y_x_t` after the copy loop. -/
def cWords (m0 : CMsg) (slice : List EventCD) (t0 : Nat) : List Nat :=
  m0.words ++ slice.map (cEncode t0 m0.timeBase)

/-- The Compact `publish` body (lines 226-274).  Returns `none` exactly
when the body reads past the end of the slice (`*start` on line 242 with
an empty slice, or `start[n - 1]` on line 267 with `n = 0`), which is
undefined behaviour in the C++ source. -/
def cPublish (s : CState) (slice : List EventCD) (now nsub T r w h : Nat) :
    Option (CState × Option CMsg) :=
  if nsub = 0 then
    some ({ s with t0 := if s.t0 = 0 then now else s.t0 }, none)
  else
    match cOpenMsg s slice (if s.t0 = 0 then now else s.t0) r w h,
        slice.getLast? with
    | some (m0, seq1), some eN =>
      if m0.stamp + T < compactTs (if s.t0 = 0 then now else s.t0) eN.t then
        some ({ s with
                  t0 := if s.t0 = 0 then now else s.t0,
                  seq := seq1, msg := none,
                  evCount0 := s.evCount0 + countP0 slice,
                  evCount1 := s.evCount1 + countP1 slice,
                  eventsSent := s.eventsSent +
                    (cWords m0 slice (if s.t0 = 0 then now else s.t0)).length,
                  msgsSent := s.msgsSent + 1 },
              some { m0 with
                       words := cWords m0 slice (if s.t0 = 0 then now else s.t0) })
      else
        some ({ s with
                  t0 := if s.t0 = 0 then now else s.t0,
                  seq := seq1,
                  msg := some { m0 with
                                  words :=
                                    cWords m0 slice
                                      (if s.t0 = 0 then now else s.t0) },
                  evCount0 := s.evCount0 + countP0 slice,
                  evCount1 := s.evCount1 + countP1 slice },
              none)
    | _, _ => none

/-! ## Configuration (`start()`, lines 91-133)

Line 95 reads `message_time_threshold` (seconds, `double`); line 97
computes
`reserveSize_ = (size_t)(sensors_max_mevs / std::max(mtt, 1e-6))`.
The arithmetic is modelled over `ℚ` (exact); the `(size_t)` cast
truncates toward zero, which on nonnegative values is the floor. -/

/-- Line 97: the pre-reservation size. -/
def reserveSize (mevs mtt : ℚ) : Nat := (⌊mevs / max mtt (1 / 1000000)⌋).toNat

/-- Modelled from the spec: "pre-reservation sized from (max expected
event rate) × (flush threshold)", reading the configured value itself as
the rate.  For comparison with `reserveSize`. -/
def specReserveMul (rate mtt : ℚ) : Nat := (⌊rate * mtt⌋).toNat

/-- Modelled from the spec: the same product with the configured value
read as mega-events per second (`sensors_max_mevs`), i.e. rate
`mevs * 10^6` events/second times the threshold.  For comparison with
`reserveSize`. -/
def specReserveMulMevs (mevs mtt : ℚ) : Nat :=
  (⌊mevs * 1000000 * mtt⌋).toNat

/-- The configuration produced by a successful `start()`. -/
structure StartConfig where
  messageTimeThreshold : ℚ
  reserve : Nat
deriving DecidableEq

/-- `start()` (lines 91-133): reads the parameters, computes
`messageTimeThreshold_` and `reserveSize_`, and fails (returns `false`,
line 108) only when the wrapper collaborator's `initialize` fails.  No
other statement of the body can fail, and no configuration value is
validated. -/
def start (mevs mtt : ℚ) (wrapperInitOK : Bool) : Option StartConfig :=
  if wrapperInitOK then some ⟨mtt, reserveSize mevs mtt⟩ else none

theorem toDouble_small {n : Nat} (h : n < 2 ^ 53) : toDouble n = n := by
  unfold toDouble
  have he : expAux 128 n = 0 := by
    show expAux (127 + 1) n = 0
    rw [expAux, if_pos h]
  rw [he]
  show roundPow2 n 0 = n
  unfold roundPow2
  norm_num [Nat.mod_one]

/-! ## Claim theorems -/

/-- C1: Compact encoding round-trip.  For every event with polarity
`p ∈ {0, 1}`, `y < 2^15`, `x < 2^16` and `dt < 2^32`, the packed 64-bit
word `p << 63 | y << 48 | x << 32 | dt` produced by the Compact encoder
decodes back to exactly the original values: bit 63 is `p`, bits 62-48
are `y`, bits 47-32 are `x`, bits 31-0 are `dt`. -/
theorem compact_pack_roundTrip {p y x dt : Nat} (hp : p < 2)
    (hy : y < 2 ^ 15) (hx : x < 2 ^ 16) (hdt : dt < 2 ^ 32) :
    decodeP (packWord p y x dt) = p ∧ decodeY (packWord p y x dt) = y ∧
      decodeX (packWord p y x dt) = x ∧ decodeDt (packWord p y x dt) = dt := by
  have hy16 : y < 2 ^ 16 := by omega
  rw [packWord_eq hp hy16 hx hdt]
  unfold decodeP decodeY decodeX decodeDt
  refine ⟨?_, ?_, ?_, ?_⟩ <;> omega

/-- Witness for C1 at `(p, y, x, dt) = (1, 5, 7, 9)`. -/
theorem compact_pack_roundTrip_witness :
    decodeP (packWord 1 5 7 9) = 1 ∧ decodeY (packWord 1 5 7 9) = 5 ∧
      decodeX (packWord 1 5 7 9) = 7 ∧ decodeDt (packWord 1 5 7 9) = 9 :=
  compact_pack_roundTrip (by norm_num) (by norm_num) (by norm_num)
    (by norm_num)

/-- C9 counterexample: the encoder never aborts; a `y` with bit 15 set
(legal for the `unsigned short` event field) silently corrupts the packed
word instead of failing fast.  `(p, y) = (0, 2^15)` encodes to the very
same word as `(p, y) = (1, 0)`: the polarity bit is silently altered. -/
theorem pack_y_overflow_corrupts_polarity :
    packWord 0 (2 ^ 15) 5 7 = packWord 1 0 5 7 ∧
      decodeP (packWord 0 (2 ^ 15) 5 7) = 1 := by
  constructor <;> decide

/-- C9 amended: there is no fail-fast path; encoding is total, and for
any in-range C++ inputs (`y < 2^16` by its `unsigned short` type) the
packed word's polarity field is `p` or-ed with bit 15 of `y` and the `y`
field holds `y mod 2^15` — silent corruption, never an abort. -/
theorem pack_total_silent_overflow {p y x dt : Nat} (hp : p < 2)
    (hy : y < 2 ^ 16) (hx : x < 2 ^ 16) (hdt : dt < 2 ^ 32) :
    decodeP (packWord p y x dt) = max p (y / 2 ^ 15) ∧
      decodeY (packWord p y x dt) = y % 2 ^ 15 ∧
      decodeX (packWord p y x dt) = x ∧
      decodeDt (packWord p y x dt) = dt := by
  rw [packWord_eq hp hy hx hdt]
  unfold decodeP decodeY decodeX decodeDt
  refine ⟨?_, ?_, ?_, ?_⟩ <;> omega

/-- Witness for the amended C9 at `(p, y, x, dt) = (0, 2^15 + 3, 5, 7)`:
the decoded polarity is `1` and the decoded `y` is `3`. -/
theorem pack_total_silent_overflow_witness :
    decodeP (packWord 0 (2 ^ 15 + 3) 5 7) = max 0 ((2 ^ 15 + 3) / 2 ^ 15) ∧
      decodeY (packWord 0 (2 ^ 15 + 3) 5 7) = (2 ^ 15 + 3) % 2 ^ 15 ∧
      decodeX (packWord 0 (2 ^ 15 + 3) 5 7) = 5 ∧
      decodeDt (packWord 0 (2 ^ 15 + 3) 5 7) = 7 :=
  pack_total_silent_overflow (by norm_num) (by norm_num) (by norm_num)
    (by norm_num)

/-- C4: Compact dt wraparound.  For every event encoded by the Compact
scheme (under the monotonic-arrival precondition `time_base ≤ ts`), the
stored 32-bit dt field of the packed word equals
`(absolute_timestamp - time_base) mod 2^32`; in particular, when the true
delta is `2^32 + k` with `k < 2^32`, the stored dt is exactly `k`. -/
theorem compact_dt_wraparound {t0 tb : Nat} {e : EventCD} (hp : e.p < 2)
    (hy : e.y < 2 ^ 15) (hx : e.x < 2 ^ 16)
    (hmono : tb ≤ compactTs t0 e.t) :
    decodeDt (cEncode t0 tb e) = (compactTs t0 e.t - tb) % 2 ^ 32 ∧
      ∀ k, k < 2 ^ 32 → compactTs t0 e.t - tb = 2 ^ 32 + k →
        decodeDt (cEncode t0 tb e) = k := by
  have hy16 : e.y < 2 ^ 16 := by omega
  have hlt := cdt_lt (compactTs t0 e.t) tb
  have h1 : decodeDt (cEncode t0 tb e) = cdt (compactTs t0 e.t) tb := by
    unfold cEncode
    rw [packWord_eq hp hy16 hx hlt]
    unfold decodeDt
    omega
  rw [h1, cdt_eq hmono]
  exact ⟨rfl, fun k hk hdelta => by omega⟩

/-- Witness for C4 with `time_base = 1` and an event `2^32 + 704`
nanoseconds later (sensor time `4294968` microseconds): the stored dt is
`704`. -/
theorem compact_dt_wraparound_witness :
    decodeDt (cEncode 1 1 ⟨5, 5, 1, 4294968⟩) = 704 :=
  (compact_dt_wraparound (by decide) (by decide) (by decide) (by decide)).2
    704 (by decide) (by decide)

/-- C5 counterexample: the Verbose per-event timestamp of line 166 is
computed in binary64 (`t0_ + e_src.t * 1e3` with `t0_` promoted to
`double`), so for the origin `2^53 + 1` and sensor time `0` the stored
timestamp is `2^53`, not the exact `origin + t * 1000`.  Any realistic
wall-clock origin (nanoseconds since the epoch) exceeds `2^53`. -/
theorem verbose_ts_double_rounding_counterexample :
    verboseTs (2 ^ 53 + 1) 0 ≠ 2 ^ 53 + 1 + 0 * 1000 := by
  decide

/-- C5 amended: the Verbose timestamp equals the binary64 evaluation of
`origin + t * 1000` (`verboseTs`); it equals the exact integer
`origin + t * 1000` whenever that value is below `2^53`, where binary64
arithmetic on integers is exact. -/
theorem verbose_ts_exact_below_2_53 {t0 t : Nat}
    (h : t0 + t * 1000 < 2 ^ 53) : verboseTs t0 t = t0 + t * 1000 := by
  have ht : t ≤ t * 1000 := Nat.le_mul_of_pos_right t (by norm_num)
  unfold verboseTs
  rw [toDouble_small (show t < 2 ^ 53 by omega),
    toDouble_small (show t * 1000 < 2 ^ 53 by omega),
    toDouble_small (show t0 < 2 ^ 53 by omega), toDouble_small h]

/-- Witness for the amended C5 at `origin = 5`, `t = 3`. -/
theorem verbose_ts_exact_below_2_53_witness : verboseTs 5 3 = 5 + 3 * 1000 :=
  verbose_ts_exact_below_2_53 (by norm_num)

/-- C7: with zero subscribers, `publish` (both variants) discards the
slice without encoding: no message is created or appended to, no counter
changes, nothing is flushed; the only state change is that `t0_` is set
to `now` if it was still `0`, and is left unchanged otherwise. -/
theorem no_subscriber_noop (s : VState) (cs : CState)
    (slice cslice : List EventCD) (now cnow T r w h : Nat) :
    vPublish s slice now 0 T r w h =
      some ({ s with t0 := if s.t0 = 0 then now else s.t0 }, none) ∧
    cPublish cs cslice cnow 0 T r w h =
      some ({ cs with t0 := if cs.t0 = 0 then cnow else cs.t0 }, none) :=
  ⟨rfl, rfl⟩

/-- C8 counterexample: `start()` accepts a degenerate configuration.
With `sensors_max_mevs = 0` and `message_time_threshold = -1` (so the
threshold is nonpositive and the reservation size is `0`), startup
succeeds whenever the wrapper initializes: nothing is rejected. -/
theorem start_accepts_degenerate_config :
    (-1 : ℚ) ≤ 0 ∧ reserveSize 0 (-1) = 0 ∧
      start 0 (-1) true = some ⟨-1, 0⟩ := by
  have hr : reserveSize 0 (-1) = 0 := by
    unfold reserveSize
    rw [max_eq_right (by norm_num : (-1 : ℚ) ≤ 1 / 1000000)]
    norm_num
  exact ⟨by norm_num, hr, by simp [start, hr]⟩

/-- C8 amended: `start()` performs no validation of the configuration:
for every `sensors_max_mevs` and `message_time_threshold` (including
threshold `≤ 0` and reservation size `0`), it succeeds exactly when the
wrapper collaborator's initialization succeeds. -/
theorem start_fails_only_on_wrapper (mevs mtt : ℚ) (ok : Bool) :
    (start mevs mtt ok).isSome = ok := by
  unfold start
  cases ok <;> simp

/-- C10: implicit non-empty-slice precondition.  With a subscriber
present and no open message, a call delivering an empty slice
(`start == end`) reads past the end in both variants (the Verbose variant
dereferences `begin()`/`rbegin()` of the empty event vector, the Compact
variant dereferences `*start` and `start[n - 1]`): the embedding reaches
the out-of-bounds program point (`none`); there is no `n == 0` guard. -/
theorem empty_slice_out_of_bounds {s : VState} {cs : CState}
    {now cnow nsub T r w h : Nat} (hn : nsub ≠ 0) (hv : s.msg = none)
    (hc : cs.msg = none) :
    vPublish s [] now nsub T r w h = none ∧
      cPublish cs [] cnow nsub T r w h = none := by
  constructor
  · simp [vPublish, vEvents, vOpenMsg, hn, hv]
  · simp [cPublish, cOpenMsg, hn, hc]

/-- Witness for C10 at a concrete fresh state. -/
theorem empty_slice_out_of_bounds_witness :
    vPublish ⟨1, 0, none, 0, 0, 0, 0⟩ [] 999 1 100000 4096 640 480 = none ∧
      cPublish ⟨1, 0, none, 0, 0, 0, 0⟩ [] 999 1 100000 4096 640 480 = none :=
  empty_slice_out_of_bounds (by decide) rfl rfl

/-- C6 counterexample: line 97 computes the reservation as
`sensors_max_mevs / max(message_time_threshold, 1e-6)` — a division, not
the claimed rate × threshold product.  At `sensors_max_mevs = 50`,
threshold `2^-13 s` (both exactly representable in binary64), the code
reserves `409600` events, while rate × threshold is `0` (reading the
parameter as the rate) or `6103` (reading it as mega-events/second):
neither matches. -/
theorem reserve_size_not_rate_times_threshold :
    reserveSize 50 (1 / 8192) = 409600 ∧
      specReserveMul 50 (1 / 8192) = 0 ∧
      specReserveMulMevs 50 (1 / 8192) = 6103 := by
  refine ⟨?_, ?_, ?_⟩
  · unfold reserveSize
    rw [max_eq_left (by norm_num : (1 : ℚ) / 1000000 ≤ 1 / 8192)]
    norm_num
    rfl
  · unfold specReserveMul
    norm_num
  · unfold specReserveMulMevs
    norm_num
    rfl

/-- C6 amended: the per-batch pre-reserved capacity is
`sensors_max_mevs` divided by `max(message_time_threshold, 1e-6)`
(truncated to an integer), and a newly opened batch's buffer is reserved
to exactly that capacity. -/
theorem reserve_size_division_and_reserved (mevs mtt : ℚ) (s : VState)
    (slice : List EventCD) (now nsub T w h : Nat) {s' : VState}
    {pub : Option VMsg} (hn : nsub ≠ 0) (hs : s.msg = none)
    (hrun : vPublish s slice now nsub T (reserveSize mevs mtt) w h =
      some (s', pub)) :
    (∀ m, s'.msg = some m → m.reservedCap = reserveSize mevs mtt) ∧
      ∀ m, pub = some m → m.reservedCap = reserveSize mevs mtt := by
  have hcap : (vOpenMsg s (reserveSize mevs mtt) w h).1.reservedCap =
      reserveSize mevs mtt := by
    unfold vOpenMsg
    rw [hs]
  unfold vPublish at hrun
  rw [if_neg hn] at hrun
  split at hrun
  · split at hrun
    · rw [Option.some.injEq, Prod.mk.injEq] at hrun
      obtain ⟨h1, h2⟩ := hrun
      subst h1
      subst h2
      constructor
      · intro m hm
        simp at hm
      · intro m hm
        rw [← Option.some.inj hm]
        exact hcap
    · rw [Option.some.injEq, Prod.mk.injEq] at hrun
      obtain ⟨h1, h2⟩ := hrun
      subst h1
      subst h2
      constructor
      · intro m hm
        simp only [Option.some.injEq] at hm
        rw [← hm]
        exact hcap
      · intro m hm
        exact Option.noConfusion hm
  · exact Option.noConfusion hrun

/-- Witness for the amended C6: a fresh batch opened by a one-event slice
carries exactly the configured reservation. -/
theorem reserve_size_division_and_reserved_witness :
    (⟨0, 0, 640, 480, reserveSize 50 (1 / 8192),
        [⟨5, 5, 0, 1⟩]⟩ : VMsg).reservedCap = reserveSize 50 (1 / 8192) :=
  (reserve_size_division_and_reserved 50 (1 / 8192) ⟨1, 0, none, 0, 0, 0, 0⟩
      [⟨5, 5, 0, 0⟩] 999 1 100000 640 480 (by decide) rfl rfl).1
    ⟨0, 0, 640, 480, reserveSize 50 (1 / 8192), [⟨5, 5, 0, 1⟩]⟩ rfl

/-- C2 counterexample: the flush comparison of lines 173 / 268 is strict
(`>`).  With threshold `100000` ns, origin `1` ns and events at sensor
times `0` and `100` µs, the newest event's absolute timestamp is exactly
`t0 + T`, and neither variant flushes (nothing is published and the
message stays open), refuting the claimed inclusive `≥` boundary. -/
theorem flush_at_threshold_boundary_no_flush :
    verboseTs 1 100 = verboseTs 1 0 + 100000 ∧
      ((vPublish ⟨1, 0, none, 0, 0, 0, 0⟩ [⟨5, 5, 0, 0⟩, ⟨5, 5, 0, 100⟩] 999 1
          100000 4096 640 480).map fun res => (res.2, res.1.msg.isSome)) =
        some (none, true) ∧
      compactTs 1 100 = compactTs 1 0 + 100000 ∧
      ((cPublish ⟨1, 0, none, 0, 0, 0, 0⟩ [⟨5, 5, 0, 0⟩, ⟨5, 5, 0, 100⟩] 999 1
          100000 4096 640 480).map fun res => (res.2, res.1.msg.isSome)) =
        some (none, true) :=
  ⟨by decide, by decide, by decide, by decide⟩

/-- C2 amended: for a batch whose first event has absolute timestamp
`t0` and threshold `T`, no flush occurs while the newest appended event's
timestamp is at most `t0 + T`; a flush occurs exactly when the newest
event's timestamp strictly exceeds `t0 + T` (the boundary `= t0 + T`
does not flush).  Stated for both variants: the flush outcome of a call
equals the strict comparison of the newest event against the batch's
first timestamp (Verbose) / batch stamp (Compact) plus `T`. -/
theorem flush_iff_strictly_exceeds (s : VState) (cs : CState)
    (slice cslice : List EventCD) (now cnow nsub T r w h : Nat)
    (e1 e2 : VEvent) (cm0 : CMsg) (csq : Nat) (eN : EventCD)
    (hn : nsub ≠ 0)
    (he1 : (vEvents s slice (if s.t0 = 0 then now else s.t0) r w h).head? =
      some e1)
    (he2 : (vEvents s slice (if s.t0 = 0 then now else s.t0) r w h).getLast? =
      some e2)
    (hcm : cOpenMsg cs cslice (if cs.t0 = 0 then cnow else cs.t0) r w h =
      some (cm0, csq))
    (hlast : cslice.getLast? = some eN) :
    ((vPublish s slice now nsub T r w h).map fun res => res.2.isSome) =
      some (decide (e1.ts + T < e2.ts)) ∧
    ((cPublish cs cslice cnow nsub T r w h).map fun res => res.2.isSome) =
      some (decide (cm0.stamp + T <
        compactTs (if cs.t0 = 0 then cnow else cs.t0) eN.t)) := by
  constructor
  · unfold vPublish
    rw [if_neg hn, he1, he2]
    by_cases hflush : e1.ts + T < e2.ts <;> simp [hflush]
  · unfold cPublish
    rw [if_neg hn, hcm, hlast]
    by_cases hflush : cm0.stamp + T <
        compactTs (if cs.t0 = 0 then cnow else cs.t0) eN.t <;>
      simp [hflush]

/-- Witness for the amended C2: with events at 0 and 101 µs and threshold
100 µs, both variants flush (the strict comparison holds). -/
theorem flush_iff_strictly_exceeds_witness :
    ((vPublish ⟨1, 0, none, 0, 0, 0, 0⟩ [⟨5, 5, 0, 0⟩, ⟨5, 5, 0, 101⟩] 999 1
        100000 4096 640 480).map fun res => res.2.isSome) =
      some (decide ((⟨5, 5, 0, 1⟩ : VEvent).ts + 100000 <
        (⟨5, 5, 0, 101001⟩ : VEvent).ts)) ∧
    ((cPublish ⟨1, 0, none, 0, 0, 0, 0⟩ [⟨5, 5, 0, 0⟩, ⟨5, 5, 0, 101⟩] 999 1
        100000 4096 640 480).map fun res => res.2.isSome) =
      some (decide ((⟨0, 1, 1, 1, 640, 480, 4096, []⟩ : CMsg).stamp + 100000 <
        compactTs (if (1 : Nat) = 0 then 999 else 1) (⟨5, 5, 0, 101⟩ : EventCD).t)) :=
  flush_iff_strictly_exceeds ⟨1, 0, none, 0, 0, 0, 0⟩ ⟨1, 0, none, 0, 0, 0, 0⟩
    [⟨5, 5, 0, 0⟩, ⟨5, 5, 0, 101⟩] [⟨5, 5, 0, 0⟩, ⟨5, 5, 0, 101⟩] 999 999 1
    100000 4096 640 480 ⟨5, 5, 0, 1⟩ ⟨5, 5, 0, 101001⟩
    ⟨0, 1, 1, 1, 640, 480, 4096, []⟩ 1 ⟨5, 5, 0, 101⟩ (by decide) (by decide)
    (by decide) (by decide) (by decide)

theorem getLast?_append_map {α β : Type} (f : α → β) (l1 : List β)
    (l2 : List α) (e : α) (h : l2.getLast? = some e) :
    (l1 ++ l2.map f).getLast? = some (f e) := by
  rw [List.getLast?_append, List.getLast?_map, h]
  rfl

theorem cPublish_run {cs : CState} {cslice : List EventCD}
    {cnow nsub T r w h : Nat} {m0 : CMsg} {sq : Nat} {eN : EventCD}
    (hn : nsub ≠ 0)
    (hcm : cOpenMsg cs cslice (if cs.t0 = 0 then cnow else cs.t0) r w h =
      some (m0, sq))
    (hlast : cslice.getLast? = some eN) :
    cPublish cs cslice cnow nsub T r w h =
      if m0.stamp + T < compactTs (if cs.t0 = 0 then cnow else cs.t0) eN.t then
        some ({ cs with
                  t0 := if cs.t0 = 0 then cnow else cs.t0,
                  seq := sq, msg := none,
                  evCount0 := cs.evCount0 + countP0 cslice,
                  evCount1 := cs.evCount1 + countP1 cslice,
                  eventsSent := cs.eventsSent +
                    (cWords m0 cslice (if cs.t0 = 0 then cnow else cs.t0)).length,
                  msgsSent := cs.msgsSent + 1 },
              some { m0 with
                       words :=
                         cWords m0 cslice (if cs.t0 = 0 then cnow else cs.t0) })
      else
        some ({ cs with
                  t0 := if cs.t0 = 0 then cnow else cs.t0,
                  seq := sq,
                  msg := some { m0 with
                                  words :=
                                    cWords m0 cslice
                                      (if cs.t0 = 0 then cnow else cs.t0) },
                  evCount0 := cs.evCount0 + countP0 cslice,
                  evCount1 := cs.evCount1 + countP1 cslice },
              none) := by
  unfold cPublish
  rw [if_neg hn, hcm, hlast]

/-- C3: triggering-event inclusion.  In both variants, the event whose
timestamp triggers the flush is encoded and appended before the flush
check runs in the same call: a flushed message's buffer is exactly the
previously accumulated buffer followed by the encodings of the whole
slice, and its last element is the encoding of the slice's last
(triggering) event — never deferred to the next batch. -/
theorem triggering_event_in_flushed_batch (s : VState) (cs : CState)
    (slice cslice : List EventCD) (now cnow nsub T r w h : Nat) :
    (∀ s' m, vPublish s slice now nsub T r w h = some (s', some m) →
      m.events = vEvents s slice (if s.t0 = 0 then now else s.t0) r w h ∧
      ∀ e, slice.getLast? = some e →
        m.events.getLast? =
          some (vEncode (if s.t0 = 0 then now else s.t0) e)) ∧
    ∀ cs' m m0 sq, cPublish cs cslice cnow nsub T r w h = some (cs', some m) →
      cOpenMsg cs cslice (if cs.t0 = 0 then cnow else cs.t0) r w h =
        some (m0, sq) →
      m.words = cWords m0 cslice (if cs.t0 = 0 then cnow else cs.t0) ∧
      ∀ e, cslice.getLast? = some e →
        m.words.getLast? =
          some (cEncode (if cs.t0 = 0 then cnow else cs.t0) m0.timeBase e) := by
  constructor
  · intro s' m hrun
    by_cases hn : nsub = 0
    · unfold vPublish at hrun
      rw [if_pos hn] at hrun
      simp at hrun
    · unfold vPublish at hrun
      rw [if_neg hn] at hrun
      split at hrun
      · split at hrun
        · rw [Option.some.injEq, Prod.mk.injEq] at hrun
          obtain ⟨h1, h2⟩ := hrun
          rw [← Option.some.inj h2]
          refine ⟨rfl, fun e he => ?_⟩
          exact getLast?_append_map _ _ _ _ he
        · rw [Option.some.injEq, Prod.mk.injEq] at hrun
          exact Option.noConfusion hrun.2
      · exact Option.noConfusion hrun
  · intro cs' m m0 sq hrun hcm
    by_cases hn : nsub = 0
    · unfold cPublish at hrun
      rw [if_pos hn] at hrun
      simp at hrun
    · rcases hl : cslice.getLast? with _ | eN
      · unfold cPublish at hrun
        rw [if_neg hn, hcm, hl] at hrun
        exact Option.noConfusion hrun
      · rw [cPublish_run hn hcm hl] at hrun
        by_cases ht : m0.stamp + T <
            compactTs (if cs.t0 = 0 then cnow else cs.t0) eN.t
        · rw [if_pos ht, Option.some.injEq, Prod.mk.injEq] at hrun
          obtain ⟨h1, h2⟩ := hrun
          rw [← Option.some.inj h2]
          refine ⟨rfl, fun e he => ?_⟩
          unfold cWords
          exact getLast?_append_map _ _ _ _ (hl.trans he)
        · rw [if_neg ht, Option.some.injEq, Prod.mk.injEq] at hrun
          exact Option.noConfusion hrun.2

/-- Witness for C3: with events at 0 and 101 µs and threshold 100 µs,
both variants flush and the flushed buffers end with the encoding of the
101 µs (triggering) event. -/
theorem triggering_event_in_flushed_batch_witness :
    (⟨0, 1, 640, 480, 4096,
        [⟨5, 5, 0, 1⟩, ⟨5, 5, 0, 101001⟩]⟩ : VMsg).events.getLast? =
      some (vEncode (if (1 : Nat) = 0 then 999 else 1) ⟨5, 5, 0, 101⟩) ∧
    (⟨0, 1, 1, 1, 640, 480, 4096,
        [cEncode 1 1 ⟨5, 5, 0, 0⟩,
          cEncode 1 1 ⟨5, 5, 0, 101⟩]⟩ : CMsg).words.getLast? =
      some (cEncode (if (1 : Nat) = 0 then 999 else 1)
        (⟨0, 1, 1, 1, 640, 480, 4096, [] ⟩ : CMsg).timeBase ⟨5, 5, 0, 101⟩) :=
  ⟨((triggering_event_in_flushed_batch ⟨1, 0, none, 0, 0, 0, 0⟩
        ⟨1, 0, none, 0, 0, 0, 0⟩ [⟨5, 5, 0, 0⟩, ⟨5, 5, 0, 101⟩]
        [⟨5, 5, 0, 0⟩, ⟨5, 5, 0, 101⟩] 999 999 1 100000 4096 640 480).1
      ⟨1, 1, none, 2, 0, 2, 1⟩
      ⟨0, 1, 640, 480, 4096, [⟨5, 5, 0, 1⟩, ⟨5, 5, 0, 101001⟩]⟩
      (by decide)).2 ⟨5, 5, 0, 101⟩ rfl,
   ((triggering_event_in_flushed_batch ⟨1, 0, none, 0, 0, 0, 0⟩
        ⟨1, 0, none, 0, 0, 0, 0⟩ [⟨5, 5, 0, 0⟩, ⟨5, 5, 0, 101⟩]
        [⟨5, 5, 0, 0⟩, ⟨5, 5, 0, 101⟩] 999 999 1 100000 4096 640 480).2
      ⟨1, 1, none, 2, 0, 2, 1⟩
      ⟨0, 1, 1, 1, 640, 480, 4096,
        [cEncode 1 1 ⟨5, 5, 0, 0⟩, cEncode 1 1 ⟨5, 5, 0, 101⟩]⟩
      ⟨0, 1, 1, 1, 640, 480, 4096, []⟩ 1 (by decide) (by decide)).2
     ⟨5, 5, 0, 101⟩ rfl⟩

end MetavisionDriver
